import Mathlib

/-!
Shallow embedding, in Lean 4, of the HEC (HTTP Event Collector) ingester of
`generators/base/hec.go`.  Go machine integers are modelled as `Int`/`Nat`,
Go `float64` arithmetic as exact rationals (`ℚ`), byte strings as `List Char`
(the payloads in question are ASCII, one byte per char), fallible operations
as `Except`/`Option`, and the mutable fields of the `hecIgst` receiver as
explicit state threaded through the functions.  Network primitives
(`net.ResolveTCPAddr`, `net.DialTCP`, `net.SplitHostPort`, `net.ParseIP`,
`conn.Close`) are effectful or environment-dependent; they are modelled as an
environment record carrying each primitive's outcome for the one call site it
has in `test`.
-/

namespace HecSpec

/-! ## Tag table (`hecIgst.tags`, `NegotiateTag`, `GetTag`, `LookupTag`)

The Go field is `tags map[entry.EntryTag]string`, seeded with
`{0: gc.Tag}`; tag ids are small non-negative integers, so the table is
modelled as an association list `List (Nat × String)` in insertion order.
`NegotiateTag` first runs `ingest.CheckTag` (a validity rule of the ingest
package, outside this repository); the rule is passed in as the parameter
`check : String → Bool`. -/

/-- The names stored in a tag table: the Go map's values. -/
def tagNames (tags : List (Nat × String)) : List String :=
  tags.map Prod.snd

/-- The scan `for k, vv := range hec.tags { if v == vv { ... } }` used by both
`NegotiateTag` and `GetTag`: find the id of a name, if present. -/
def lookupByName (tags : List (Nat × String)) (v : String) : Option Nat :=
  (tags.find? (fun p => p.2 == v)).map Prod.fst

/-- The seed table built in `newHecConn`: `map[entry.EntryTag]string{0: gc.Tag}`. -/
def seedTags (defaultTag : String) : List (Nat × String) :=
  [(0, defaultTag)]

/-- `hecIgst.NegotiateTag` (hec.go:146): validate the name with
`ingest.CheckTag` (here the parameter `check`); if the name is already in the
table return its id; otherwise the new id is `len(hec.tags)` and the pair is
inserted. -/
def negotiateTag (check : String → Bool) (tags : List (Nat × String))
    (v : String) : Except String (Nat × List (Nat × String)) :=
  if check v then
    match lookupByName tags v with
    | some k => .ok (k, tags)
    | none => .ok (tags.length, tags ++ [(tags.length, v)])
  else .error "invalid tag name"

/-- `hecIgst.GetTag` (hec.go:162): pure scan of the table; `errors.New("not
found")` when the name is absent.  It never mutates `hec.tags`, which the
embedding reflects by not returning a table at all. -/
def getTag (tags : List (Nat × String)) (v : String) : Except String Nat :=
  match lookupByName tags v with
  | some k => .ok k
  | none => .error "not found"

/-- A sequence of `NegotiateTag` calls (used to state claim C5 about runs of
successful negotiations): returns the list of assigned ids and the final
table, or `none` as soon as one call errors. -/
def negotiateSeq (check : String → Bool) (tags : List (Nat × String)) :
    List String → Option (List Nat × List (Nat × String))
  | [] => some ([], tags)
  | v :: rest =>
    match negotiateTag check tags v with
    | .error _ => none
    | .ok (t, tags') =>
      match negotiateSeq check tags' rest with
      | none => none
      | some (ts, tf) => some (t :: ts, tf)

/-! ## Timestamps (`timeFloat`, hec.go:262)

`entry.Timestamp` carries `Sec int64` (seconds in Go's internal epoch, year 1)
and `Nsec int64`.  `float64` arithmetic is modelled exactly over `ℚ`. -/

/-- `entry.Timestamp`: seconds since Go's internal epoch plus a nanosecond
remainder. -/
structure Timestamp where
  Sec : Int
  Nsec : Int
deriving Repr, DecidableEq

/-- The constant `unixToInternal` of hec.go:259, with Go's truncating integer
division. -/
def unixToInternal : Int :=
  (1969 * 365 + 1969 / 4 - 1969 / 100 + 1969 / 400) * (24 * (60 * 60))

/-- `timeFloat` (hec.go:262): clamp timestamps before the Unix epoch to `0`,
otherwise seconds since the Unix epoch plus the nanosecond part over 1e9. -/
def timeFloat (ts : Timestamp) : ℚ :=
  if ts.Sec < unixToInternal then 0
  else ((ts.Sec - unixToInternal : Int) : ℚ) + (ts.Nsec : ℚ) / 1000000000

/-- The timestamp's position relative to the Unix epoch, in seconds, written
independently of `timeFloat`: the spec's `seconds_since_epoch +
nanoseconds/1e9`. -/
def epochSeconds (ts : Timestamp) : ℚ :=
  ((ts.Sec - unixToInternal : Int) : ℚ) + (ts.Nsec : ℚ) / 1000000000

/-! ## The output stream (`io.Pipe` writer side) and `sendRaw` -/

/-- The writer side of the `io.Pipe` created in `newHecConn`: the bytes pushed
into the single HTTP request body so far, and whether the pipe has been
closed (after which every write fails with `io: read/write on closed pipe`). -/
structure Pipe where
  buf : List Char
  closed : Bool
deriving Repr, DecidableEq

/-- A single `hec.wtr.Write(..)` call. -/
def pipeWrite (p : Pipe) (data : List Char) : Except String Pipe :=
  if p.closed then .error "io: read/write on closed pipe"
  else .ok { p with buf := p.buf ++ data }

/-- `hecIgst.sendRaw` (hec.go:205): write the payload bytes, then the single
byte `"\n"`; stop at the first failing write. -/
def sendRaw (p : Pipe) (data : List Char) : Except String Pipe :=
  match pipeWrite p data with
  | .error e => .error e
  | .ok p' =>
    match pipeWrite p' ['\n'] with
    | .error e => .error e
    | .ok p'' => .ok p''

/-! ## `WriteBatch` (hec.go:181)

`WriteBatch` loops over the entries calling `hec.WriteEntry` and returns the
first error.  The write operation mutates the receiver (the pipe), so the
embedding threads an explicit state `σ` through an abstract per-entry write
`we`; `writeBatch` returns the first error (if any) together with the state
as mutated by the writes already performed. -/

/-- One pass of `WriteBatch`'s loop: the error returned (`none` for nil) and
the stream state after the calls that were made. -/
def writeBatch {σ ε α : Type} (we : σ → α → Except ε σ) :
    σ → List α → Option ε × σ
  | s, [] => (none, s)
  | s, e :: rest =>
    match we s e with
    | .error err => (some err, s)
    | .ok s' => writeBatch we s' rest

/-- Folding a write over a list with no failure: used to phrase "all entries
before the failing one were already written". -/
def writeAll {σ ε α : Type} (we : σ → α → Except ε σ) :
    σ → List α → Except ε σ
  | s, [] => .ok s
  | s, e :: rest =>
    match we s e with
    | .error err => .error err
    | .ok s' => writeAll we s' rest

/-! ## The outcome channel (`hec.errch`) and `httpRoutine` / `Close`

`errch` is a `chan error` of capacity 1.  `httpRoutine` sends exactly one
value on it and then closes it (`defer close(hec.errch)`), so by the time the
routine has terminated the channel holds one buffered value and is closed.
`Close` closes the pipe's write side (return value discarded) and receives
from the channel; a receive from a closed, drained channel yields the zero
value of `error`, i.e. nil.  Go's `error` is modelled as `Option String`
(`none` = nil). -/

/-- A `chan error` of capacity 1: the buffered value (if any) and whether the
channel has been closed. -/
structure ErrChan where
  buffer : Option (Option String)
  closed : Bool
deriving Repr, DecidableEq

/-- A receive `<-c` on a channel on which no further send will happen (as is
the case once `httpRoutine` has run its `defer close`): take the buffered
value if there is one, otherwise — the channel being closed — yield the zero
value `none`. -/
def chanRecv (c : ErrChan) : Option String × ErrChan :=
  match c.buffer with
  | some v => (v, { c with buffer := none })
  | none => (none, c)

/-- The result of the single HTTP request owned by `httpRoutine`: request
construction failed, `cli.Do` failed, or a response arrived with a status
code, a status line and a body. -/
inductive HttpResult where
  | reqError (e : String)
  | doError (e : String)
  | response (code : Nat) (status : String) (body : List Char)
deriving Repr, DecidableEq

/-- The message built by `fmt.Errorf("invalid status %d (%v)\n%s", ...)` at
hec.go:116, where `%s` is the body truncated by an `io.LimitedReader` to its
first 512 bytes. -/
def statusMsg (code : Nat) (status : String) (body : List Char) : String :=
  String.mk ("invalid status ".data ++ (Nat.repr code).data ++ " (".data ++
    status.data ++ [')', '\n'] ++ body.take 512)

/-- The single value `httpRoutine` (hec.go:81) sends on `hec.errch`: the
request-construction or transport error if one occurred; otherwise `nil` for
status 200 and the `statusMsg` error for any other status. -/
def httpRoutineOutcome : HttpResult → Option String
  | .reqError e => some e
  | .doError e => some e
  | .response code status body =>
    if code = 200 then none else some (statusMsg code status body)

/-- The state of `hec.errch` after `httpRoutine` has terminated on result
`r`: the outcome was sent (capacity 1, never read yet) and the deferred
`close` ran. -/
def routineChan (r : HttpResult) : ErrChan :=
  { buffer := some (httpRoutineOutcome r), closed := true }

/-- `hecIgst.Close` (hec.go:127) over the explicit state: close the pipe's
write side (its error is discarded by the Go code) and receive the outcome
from `errch`. -/
def closeConn : Pipe × ErrChan → Option String × (Pipe × ErrChan)
  | (p, c) =>
    let p' := { p with closed := true }
    let (e, c') := chanRecv c
    (e, (p', c'))

/-- The result of the `(n+1)`-th call to `Close` starting from state `s`
(`n = 0` is the first call). -/
def closeSeq (s : Pipe × ErrChan) : Nat → Option String
  | 0 => (closeConn s).1
  | n + 1 => closeSeq (closeConn s).2 n

/-! ## Connection construction (`newHecConn`, `test`)

`newHecConn` parses the configured URL, then runs `test`, which resolves the
host, dials it, splits the probe connection's local address into host and
port, assigns `hec.src = net.ParseIP(host)` — without checking `ParseIP` for
failure — and finally closes the probe connection.  The network primitives
are modelled as an environment of their outcomes at their single call sites;
`net.ParseIP` returns nil (here `none`) on failure rather than an error. -/

/-- Outcomes of the effectful primitives used by `test` (hec.go:63). -/
structure NetEnv where
  resolve : Except String Unit
  dial : Except String Unit
  split : Except String String
  parseIP : String → Option String
  closeErr : Option String

/-- `hecIgst.test` (hec.go:63): returns the discovered source address
(`none` models a nil `net.IP`).  Note that a `ParseIP` failure is silently
absorbed, while a failure of any of resolve, dial, split or the probe close
aborts. -/
def test (env : NetEnv) : Except String (Option String) :=
  match env.resolve with
  | .error e => .error e
  | .ok _ =>
    match env.dial with
    | .error e => .error e
    | .ok _ =>
      match env.split with
      | .error e => .error e
      | .ok ipstr =>
        let src := env.parseIP ipstr
        match env.closeErr with
        | some e => .error e
        | none => .ok src

/-- The fields of the constructed connection that the claims are about. -/
structure HecConn where
  src : Option String
  tags : List (Nat × String)
deriving Repr, DecidableEq

/-- `newHecConn` (hec.go:40): fail if the URL does not parse or `test`
fails; otherwise the connection is usable, with the seeded tag table.
`urlParse` is the outcome of `url.Parse(gc.HEC)`. -/
def newHecConn (urlParse : Except String Unit) (defaultTag : String)
    (env : NetEnv) : Except String HecConn :=
  match urlParse with
  | .error e => .error e
  | .ok _ =>
    match test env with
    | .error e => .error e
    | .ok src => .ok { src := src, tags := seedTags defaultTag }

/-! ## JSON (`encoding/json` as used by hec.go)

`sendEvent` serialises a `hecent` value whose `Event` field is a
`json.RawMessage`; the marshaller validates a non-empty raw message against
the JSON grammar and fails if it is not well-formed.  `setData` (hec.go:222)
quotes a byte string with `json.Marshal(string(data))`.  Both stdlib
behaviours are embedded below: a JSON-grammar validator (recursive descent
with an explicit fuel bound, as Lean requires) and the string quoter with
Go's escaping rules (HTML escaping on, as for `json.Marshal`). -/

/-- JSON whitespace, as in Go's scanner. -/
def isWS (c : Char) : Bool :=
  c = ' ' || c = '\t' || c = '\n' || c = '\r'

/-- Drop leading JSON whitespace. -/
def skipWS : List Char → List Char
  | [] => []
  | c :: r => if isWS c then skipWS r else c :: r

/-- Expect the literal characters `lit` at the head of the input. -/
def expectLit : List Char → List Char → Option (List Char)
  | [], s => some s
  | c :: lr, s =>
    match s with
    | [] => none
    | d :: r => if d = c then expectLit lr r else none

/-- Drop leading decimal digits. -/
def dropDigits (s : List Char) : List Char :=
  s.dropWhile (fun c => c.isDigit)

/-- Does the input start with a decimal digit? -/
def headDigit (s : List Char) : Bool :=
  match s with
  | c :: _ => c.isDigit
  | [] => false

/-- Hexadecimal digit test (for `\uXXXX` escapes). -/
def isHexDigit (c : Char) : Bool :=
  c.isDigit || ('a' ≤ c && c ≤ 'f') || ('A' ≤ c && c ≤ 'F')

/-- Scan the remainder of a JSON string, the opening quote already
consumed. -/
def stringRest : List Char → Option (List Char)
  | [] => none
  | c :: r =>
    if c = '"' then some r
    else if c = '\\' then
      match r with
      | [] => none
      | e :: r2 =>
        if e = 'u' then
          match r2 with
          | a :: b :: c2 :: d :: r3 =>
            if isHexDigit a && isHexDigit b && isHexDigit c2 && isHexDigit d
            then stringRest r3 else none
          | _ => none
        else if e = '"' || e = '\\' || e = '/' || e = 'b' || e = 'f' ||
                e = 'n' || e = 'r' || e = 't' then stringRest r2
        else none
    else if c.toNat < 32 then none
    else stringRest r
termination_by s => s.length
decreasing_by all_goals simp_arith [List.length]

/-- Scan the exponent part of a JSON number (input starts after the mantissa). -/
def expPart (s : List Char) : Option (List Char) :=
  match s with
  | 'e' :: r | 'E' :: r =>
    let r2 := match r with
      | '+' :: r' => r'
      | '-' :: r' => r'
      | _ => r
    if headDigit r2 then some (dropDigits r2) else none
  | _ => some s

/-- Scan the fraction and exponent of a JSON number. -/
def fracExpPart (s : List Char) : Option (List Char) :=
  match s with
  | '.' :: r => if headDigit r then expPart (dropDigits r) else none
  | _ => expPart s

/-- Scan a JSON number: optional minus, `0` or a nonzero-led digit run, then
fraction and exponent. -/
def numberRest (s : List Char) : Option (List Char) :=
  let s1 := match s with
    | '-' :: r => r
    | _ => s
  match s1 with
  | '0' :: r => fracExpPart r
  | c :: r => if c.isDigit then fracExpPart (dropDigits r) else none
  | [] => none

mutual

/-- Scan one JSON value (with leading whitespace); `scanMembers` scans object
members after `{`, `scanElems` array elements after `[`.  `fuel` bounds the
nesting; every recursive call has consumed input, so `length + 1` fuel always
suffices. -/
def scanVal : Nat → List Char → Option (List Char)
  | 0, _ => none
  | fuel + 1, s =>
    match skipWS s with
    | [] => none
    | c :: rest =>
      if c = '\x7b' then
        match skipWS rest with
        | '\x7d' :: r => some r
        | r => scanMembers fuel r
      else if c = '[' then
        match skipWS rest with
        | ']' :: r => some r
        | r => scanElems fuel r
      else if c = '"' then stringRest rest
      else if c = 't' then expectLit ['r', 'u', 'e'] rest
      else if c = 'f' then expectLit ['a', 'l', 's', 'e'] rest
      else if c = 'n' then expectLit ['u', 'l', 'l'] rest
      else numberRest (c :: rest)

/-- Scan `"key": value (, ...)* }`, see `scanVal`. -/
def scanMembers : Nat → List Char → Option (List Char)
  | 0, _ => none
  | fuel + 1, s =>
    match skipWS s with
    | '"' :: rest =>
      match stringRest rest with
      | none => none
      | some r =>
        match skipWS r with
        | ':' :: r2 =>
          match scanVal fuel r2 with
          | none => none
          | some r3 =>
            match skipWS r3 with
            | ',' :: r4 => scanMembers fuel r4
            | '\x7d' :: r4 => some r4
            | _ => none
        | _ => none
    | _ => none

/-- Scan `value (, value)* ]`, see `scanVal`. -/
def scanElems : Nat → List Char → Option (List Char)
  | 0, _ => none
  | fuel + 1, s =>
    match scanVal fuel s with
    | none => none
    | some r =>
      match skipWS r with
      | ',' :: r2 => scanElems fuel r2
      | ']' :: r2 => some r2
      | _ => none

end

/-- Go's `json.checkValid`: one JSON value, possibly surrounded by
whitespace, spanning the whole input. -/
def validJSON (s : List Char) : Bool :=
  match scanVal (s.length + 1) s with
  | some r => (skipWS r).isEmpty
  | none => false

/-- Lower-case hexadecimal digit. -/
def hexDigit (n : Nat) : Char :=
  if n < 10 then Char.ofNat ('0'.toNat + n) else Char.ofNat ('a'.toNat + (n - 10))

/-- Go's JSON string escaping for one character (`json.Marshal` defaults:
HTML characters escaped, `\n`/`\r`/`\t` shorthands, other control characters
as `\u00XX`, U+2028/U+2029 escaped). -/
def escapeChar (c : Char) : List Char :=
  if c = '"' then ['\\', '"']
  else if c = '\\' then ['\\', '\\']
  else if c = '\n' then ['\\', 'n']
  else if c = '\r' then ['\\', 'r']
  else if c = '\t' then ['\\', 't']
  else if c = '<' || c = '>' || c = '&' || c.toNat < 32 then
    ['\\', 'u', '0', '0', hexDigit (c.toNat / 16), hexDigit (c.toNat % 16)]
  else if c.toNat = 0x2028 || c.toNat = 0x2029 then
    ['\\', 'u', '2', '0', '2', hexDigit (c.toNat % 16)]
  else [c]

/-- `json.Marshal` of a Go string: the JSON-quoted form of the bytes. -/
def jsonQuote (s : List Char) : List Char :=
  '"' :: (s.map escapeChar).flatten ++ ['"']

/-- `setData` (hec.go:222) together with the global alternation flag
`osc` (hec.go:220), passed and returned explicitly: an object-shaped payload
(`len >= 2`, first byte `{`, last byte `}`) toggles `osc` and is embedded
as-is when the toggled flag is true, JSON-quoted otherwise; every other
payload is JSON-quoted and leaves the flag alone.  (`json.Marshal` of a
string cannot fail, so the nil-returning branch of the Go code is
unreachable.)  NOTE: this function is never called by `sendEvent` — see the
claim-C1 theorems. -/
def setData (data : List Char) (osc : Bool) : List Char × Bool :=
  if 2 ≤ data.length ∧ data.head? = some '\x7b' ∧ data.getLast? = some '\x7d' then
    if !osc then (data, !osc) else (jsonQuote data, !osc)
  else (jsonQuote data, osc)

/-! ## Event mode (`hecent`, `sendEvent`) -/

/-- The JSON object written for one event-mode entry: the `hecent` struct of
hec.go:214 after marshalling, field by field (`none` = field omitted by
`omitempty`).  `event` holds the bytes embedded raw in the `event` field. -/
structure HecRecord where
  event : Option (List Char)
  time : Option ℚ
  sourcetype : Option String
deriving Repr, DecidableEq

/-- `entry.Entry` restricted to the fields hec.go reads. -/
structure Entry where
  TS : Timestamp
  Tag : Nat
  Data : List Char
deriving Repr, DecidableEq

/-- `json.Marshal` of a `hecent` value: a non-empty `Event` raw message is
validated against the JSON grammar and rejected when ill-formed; `omitempty`
drops an empty `Event`, a zero `Time` and an empty `ST`. -/
def marshalHecent (event : List Char) (time : ℚ) (st : String) :
    Except String HecRecord :=
  if event ≠ [] ∧ validJSON event = false then
    .error "json: error calling MarshalJSON for type json.RawMessage: invalid value"
  else
    .ok { event := if event = [] then none else some event,
          time := if time = 0 then none else some time,
          sourcetype := if st = "" then none else some st }

/-- `hecIgst.sendEvent` (hec.go:237): a nil entry is a no-op; otherwise build
`hecent{Time: timeFloat(ent.TS), Event: json.RawMessage(ent.Data), ST:
hec.Tag}` — the payload goes into the `event` field raw, `setData` is never
invoked — and encode it onto the stream.  On success the encoder appends the
record (plus a newline); on a marshalling error nothing is written. -/
def sendEvent (st : String) (ent : Option Entry) :
    Except String (Option HecRecord) :=
  match ent with
  | none => .ok none
  | some e =>
    match marshalHecent e.Data (timeFloat e.TS) st with
    | .error err => .error err
    | .ok r => .ok (some r)

/-! ## Helper lemmas about the tag table -/

/-- The scan of `NegotiateTag`/`GetTag` misses exactly when the name is not a
value of the table. -/
theorem lookupByName_eq_none_iff (s : List (Nat × String)) (v : String) :
    lookupByName s v = none ↔ v ∉ tagNames s := by
  simp [lookupByName, Option.map_eq_none', List.find?_eq_none, tagNames,
    List.mem_map]
  aesop

/-- `NegotiateTag` on a valid, fresh name assigns the current table size and
appends the pair. -/
theorem negotiateTag_fresh (check : String → Bool) (s : List (Nat × String))
    (v : String) (hc : check v = true) (hv : v ∉ tagNames s) :
    negotiateTag check s v = .ok (s.length, s ++ [(s.length, v)]) := by
  simp [negotiateTag, hc, (lookupByName_eq_none_iff s v).mpr hv]

/-- Any successful `NegotiateTag` call keeps the table's names
duplicate-free. -/
theorem negotiateTag_nodup (check : String → Bool)
    {s : List (Nat × String)} {v : String} {t : Nat}
    {s' : List (Nat × String)} (hs : (tagNames s).Nodup)
    (h : negotiateTag check s v = .ok (t, s')) : (tagNames s').Nodup := by
  by_cases hc : check v = true
  · rcases hfind : lookupByName s v with _ | k
    · simp [negotiateTag, hc, hfind] at h
      rcases h with ⟨-, h2⟩
      have hv : v ∉ tagNames s := (lookupByName_eq_none_iff s v).mp hfind
      subst h2
      simp [tagNames, List.map_append, List.nodup_append]
      exact ⟨hs, by simpa [tagNames] using hv⟩
    · simp [negotiateTag, hc, hfind] at h
      rcases h with ⟨-, h2⟩
      subst h2
      exact hs
  · simp [negotiateTag, hc] at h

/-- Negotiating a run of valid, pairwise-distinct names that are all new
assigns exactly the ids `tableSize, tableSize+1, ...` and extends the name
list by the run. -/
theorem negotiateSeq_fresh (check : String → Bool) (names : List String) :
    ∀ s : List (Nat × String), (∀ n ∈ names, check n = true) →
    (∀ n ∈ names, n ∉ tagNames s) → names.Nodup →
    ∃ tf, negotiateSeq check s names =
        some (List.range' s.length names.length, tf) ∧
      tagNames tf = tagNames s ++ names := by
  induction names with
  | nil =>
    intro s _ _ _
    exact ⟨s, by simp [negotiateSeq, List.range'], by simp⟩
  | cons n rest ih =>
    intro s hcheck hfresh hnodup
    have hstep := negotiateTag_fresh check s n (hcheck n (by simp))
      (hfresh n (by simp))
    have hrest : ∀ m ∈ rest, m ∉ tagNames (s ++ [(s.length, n)]) := by
      intro m hm
      simp [tagNames, List.map_append]
      refine ⟨?_, ?_⟩
      · simpa [tagNames] using hfresh m (by simp [hm])
      · rintro rfl
        exact (List.nodup_cons.mp hnodup).1 hm
    obtain ⟨tf, h1, h2⟩ := ih (s ++ [(s.length, n)])
      (fun m hm => hcheck m (by simp [hm])) hrest
      (List.nodup_cons.mp hnodup).2
    have hlen : (s ++ [(s.length, n)]).length = s.length + 1 := by simp
    rw [hlen] at h1
    refine ⟨tf, ?_, ?_⟩
    · simp only [negotiateSeq, hstep, h1, List.length_cons, List.range'_succ]
    · rw [h2]
      simp [tagNames, List.map_append]

/-! ## Claim theorems: tag table -/

/-- C5: a sequence of successful `NegotiateTag` calls on valid, distinct, new
names assigns strictly increasing ids, each equal to the table's size
immediately before its insertion (size grows by one per insertion, so the
id of the `i`-th new name is `initial size + i`); moreover every successful
`NegotiateTag` call preserves the invariant that each name occurs at most
once in the table. -/
theorem negotiateTag_increasing_and_inv (check : String → Bool)
    (s : List (Nat × String)) (names : List String)
    (hcheck : ∀ n ∈ names, check n = true)
    (hfresh : ∀ n ∈ names, n ∉ tagNames s) (hnodup : names.Nodup) :
    (∃ ids tf, negotiateSeq check s names = some (ids, tf) ∧
      ids.Pairwise (· < ·) ∧
      (∀ i, (h : i < ids.length) → ids.get ⟨i, h⟩ = s.length + i) ∧
      ((tagNames s).Nodup → (tagNames tf).Nodup)) ∧
    (∀ s' v t s'', (tagNames s').Nodup →
      negotiateTag check s' v = .ok (t, s'') → (tagNames s'').Nodup) := by
  constructor
  · obtain ⟨tf, h1, h2⟩ := negotiateSeq_fresh check names s hcheck hfresh hnodup
    refine ⟨List.range' s.length names.length, tf, h1, ?_, ?_, ?_⟩
    · exact List.pairwise_lt_range' s.length names.length
    · intro i h
      simp [List.getElem_range']
    · intro hs
      rw [h2]
      simp [List.nodup_append]
      refine ⟨hs, hnodup, ?_⟩
      intro m hm hmem
      exact hfresh m hmem hm
  · intro s' v t s'' hs' h
    exact negotiateTag_nodup check hs' h

/-- C5 witness: starting from the seeded table, negotiating the fresh
distinct names `a`, `b` yields ids `1`, `2`. -/
theorem negotiateTag_increasing_witness :
    ((∀ n ∈ ["a", "b"], (fun _ => true) n = true) ∧
     (∀ n ∈ ["a", "b"], n ∉ tagNames (seedTags "default")) ∧
     (["a", "b"] : List String).Nodup) ∧
    ((∃ ids tf, negotiateSeq (fun _ => true) (seedTags "default") ["a", "b"] =
        some (ids, tf) ∧
      ids.Pairwise (· < ·) ∧
      (∀ i, (h : i < ids.length) → ids.get ⟨i, h⟩ =
        (seedTags "default").length + i) ∧
      ((tagNames (seedTags "default")).Nodup → (tagNames tf).Nodup)) ∧
    (∀ s' v t s'', (tagNames s').Nodup →
      negotiateTag (fun _ => true) s' v = .ok (t, s'') →
      (tagNames s'').Nodup)) :=
  ⟨⟨by decide, by decide, by decide⟩,
    negotiateTag_increasing_and_inv (fun _ => true) (seedTags "default")
      ["a", "b"] (by decide) (by decide) (by decide)⟩

/-- C6: `NegotiateTag` is idempotent for an already-negotiated name — the
second call returns the same id and leaves the table unchanged. -/
theorem negotiateTag_idempotent (check : String → Bool)
    (s : List (Nat × String)) (v : String) (t : Nat)
    (s' : List (Nat × String)) (hc : check v = true)
    (h : negotiateTag check s v = .ok (t, s')) :
    negotiateTag check s' v = .ok (t, s') := by
  rcases hfind : lookupByName s v with _ | k
  · have hfnone : s.find? (fun p => p.2 == v) = none := by
      simpa [lookupByName, Option.map_eq_none'] using hfind
    simp [negotiateTag, hc, hfind] at h
    rcases h with ⟨h1, h2⟩
    have hnext : lookupByName s' v = some t := by
      subst h1 h2
      simp [lookupByName, List.find?_append, hfnone]
    simp [negotiateTag, hc, hnext]
  · simp [negotiateTag, hc, hfind] at h
    rcases h with ⟨h1, h2⟩
    subst h1 h2
    simp [negotiateTag, hc, hfind]

/-- C6 witness: negotiating the fresh name `a` on the seeded table and then
negotiating `a` again returns the same id `1` and the same table. -/
theorem negotiateTag_idempotent_witness :
    ((fun _ => true) "a" = true ∧
     negotiateTag (fun _ => true) (seedTags "d") "a" =
       .ok (1, seedTags "d" ++ [(1, "a")])) ∧
    negotiateTag (fun _ => true) (seedTags "d" ++ [(1, "a")]) "a" =
      .ok (1, seedTags "d" ++ [(1, "a")]) :=
  ⟨⟨rfl, by rfl⟩,
    negotiateTag_idempotent (fun _ => true) (seedTags "d") "a" 1
      (seedTags "d" ++ [(1, "a")]) rfl (by rfl)⟩

/-- C7: `GetTag` on a never-negotiated name fails with the "not found" error;
being a pure scan, it leaves the table untouched (the embedding takes and
returns no table state, mirroring that `GetTag` never writes `hec.tags`). -/
theorem getTag_not_found (s : List (Nat × String)) (v : String)
    (hv : v ∉ tagNames s) : getTag s v = .error "not found" := by
  simp [getTag, (lookupByName_eq_none_iff s v).mpr hv]

/-- C7 witness: looking up the name `nope` in the seeded table fails. -/
theorem getTag_not_found_witness :
    ("nope" ∉ tagNames (seedTags "default")) ∧
    getTag (seedTags "default") "nope" = .error "not found" :=
  ⟨by decide, getTag_not_found (seedTags "default") "nope" (by decide)⟩

/-! ## Claim theorems: timestamps, raw mode, batches, close -/

/-- C2: with a normalised nanosecond field, `timeFloat` returns exactly `0`
for timestamps strictly before the Unix epoch and exactly
`seconds_since_epoch + nanoseconds/1e9` otherwise ("before the epoch" is
expressed independently as `epochSeconds < 0`; `float64` arithmetic is
modelled exactly over `ℚ`). -/
theorem timeFloat_epoch_clamp (ts : Timestamp) (h0 : 0 ≤ ts.Nsec)
    (h1 : ts.Nsec < 1000000000) :
    (epochSeconds ts < 0 → timeFloat ts = 0) ∧
    (0 ≤ epochSeconds ts → timeFloat ts = epochSeconds ts) := by
  have hq0 : (0 : ℚ) ≤ (ts.Nsec : ℚ) := by exact_mod_cast h0
  have hns : (0 : ℚ) ≤ (ts.Nsec : ℚ) / 1000000000 := by positivity
  have hlt : (ts.Nsec : ℚ) / 1000000000 < 1 := by
    rw [div_lt_one (by norm_num)]
    exact_mod_cast h1
  constructor
  · intro h
    have hsec : ts.Sec < unixToInternal := by
      by_contra hge
      push_neg at hge
      have hz : (0 : ℚ) ≤ ((ts.Sec - unixToInternal : Int) : ℚ) := by
        have : (0 : Int) ≤ ts.Sec - unixToInternal := by omega
        exact_mod_cast this
      have : 0 ≤ epochSeconds ts := by
        unfold epochSeconds
        linarith
      linarith
    simp [timeFloat, hsec]
  · intro h
    have hsec : ¬ ts.Sec < unixToInternal := by
      intro hlt2
      have hle : ((ts.Sec - unixToInternal : Int) : ℚ) ≤ -1 := by
        have : ts.Sec - unixToInternal ≤ -1 := by omega
        exact_mod_cast this
      have : epochSeconds ts < 0 := by
        unfold epochSeconds
        linarith
      linarith
    simp [timeFloat, hsec, epochSeconds]

/-- C2 witness: half a second after the Unix epoch
(`Sec = unixToInternal`, `Nsec = 5e8`). -/
theorem timeFloat_epoch_clamp_witness :
    ((0 : Int) ≤ 500000000 ∧ (500000000 : Int) < 1000000000) ∧
    ((epochSeconds ⟨62135596800, 500000000⟩ < 0 →
        timeFloat ⟨62135596800, 500000000⟩ = 0) ∧
      (0 ≤ epochSeconds ⟨62135596800, 500000000⟩ →
        timeFloat ⟨62135596800, 500000000⟩ =
          epochSeconds ⟨62135596800, 500000000⟩)) :=
  ⟨⟨by decide, by decide⟩,
    timeFloat_epoch_clamp ⟨62135596800, 500000000⟩ (by decide) (by decide)⟩

/-- C8: a successful raw-mode write appends exactly the payload bytes
followed by one newline byte to the output stream, and nothing else. -/
theorem sendRaw_appends (p : Pipe) (d : List Char) (p' : Pipe)
    (h : sendRaw p d = .ok p') : p'.buf = p.buf ++ d ++ ['\n'] := by
  by_cases hc : p.closed
  · simp [sendRaw, pipeWrite, hc] at h
  · simp [sendRaw, pipeWrite, hc] at h
    subst h
    simp

/-- C8 witness: raw-mode write of the payload `{"a":1}` onto the fresh empty
stream yields exactly `{"a":1}\n`. -/
theorem sendRaw_appends_witness :
    sendRaw ⟨[], false⟩ "\x7b\"a\":1\x7d".data =
      .ok ⟨"\x7b\"a\":1\x7d".data ++ ['\n'], false⟩ ∧
    (Pipe.mk ("\x7b\"a\":1\x7d".data ++ ['\n']) false).buf =
      [] ++ "\x7b\"a\":1\x7d".data ++ ['\n'] :=
  ⟨by rfl,
    sendRaw_appends ⟨[], false⟩ "\x7b\"a\":1\x7d".data
      ⟨"\x7b\"a\":1\x7d".data ++ ['\n'], false⟩ (by rfl)⟩

/-- C9: `WriteBatch` writes sequentially in list order; if the prefix `l1`
succeeds (leaving stream state `s1`) and the next entry's write fails, the
batch stops there and returns that first error, with the state still `s1` —
all of `l1` already transmitted, nothing after the failure attempted; a batch
whose writes all succeed returns nil. -/
theorem writeBatch_first_error {σ ε α : Type} (we : σ → α → Except ε σ) :
    (∀ (s s1 : σ) (l1 l2 : List α) (e : α) (err : ε),
      writeAll we s l1 = .ok s1 → we s1 e = .error err →
      writeBatch we s (l1 ++ e :: l2) = (some err, s1)) ∧
    (∀ (s s' : σ) (ents : List α),
      writeAll we s ents = .ok s' → writeBatch we s ents = (none, s')) := by
  constructor
  · intro s s1 l1 l2 e err h1 h2
    induction l1 generalizing s with
    | nil =>
      simp [writeAll] at h1
      subst h1
      simp [writeBatch, h2]
    | cons a l1' ih =>
      rcases hw : we s a with e' | s2
      · simp [writeAll, hw] at h1
      · simp [writeAll, hw] at h1
        simpa [writeBatch, hw] using ih s2 h1
  · intro s s' ents h
    induction ents generalizing s with
    | nil =>
      simp [writeAll] at h
      subst h
      rfl
    | cons a rest ih =>
      rcases hw : we s a with e' | s2
      · simp [writeAll, hw] at h
      · simp [writeAll, hw] at h
        simpa [writeBatch, hw] using ih s2 h

/-- C9 witness: with a write that fails exactly on the entry `0`, the batch
`[1, 2, 0, 3]` transmits `1, 2`, stops at `0` with its error, and the
all-success batch `[1, 2]` returns nil. -/
theorem writeBatch_first_error_witness :
    (writeAll (fun (s : List Nat) (e : Nat) =>
        if e = 0 then Except.error "zero entry" else Except.ok (s ++ [e]))
        [] [1, 2] = .ok [1, 2] ∧
      (fun (s : List Nat) (e : Nat) =>
        if e = 0 then Except.error "zero entry" else Except.ok (s ++ [e]))
        [1, 2] 0 = .error "zero entry" ∧
      writeBatch (fun (s : List Nat) (e : Nat) =>
        if e = 0 then Except.error "zero entry" else Except.ok (s ++ [e]))
        [] ([1, 2] ++ 0 :: [3]) = (some "zero entry", [1, 2])) ∧
    writeBatch (fun (s : List Nat) (e : Nat) =>
        if e = 0 then Except.error "zero entry" else Except.ok (s ++ [e]))
        [] [1, 2] = (none, [1, 2]) :=
  ⟨⟨by rfl, by rfl,
      (writeBatch_first_error _).1 [] [1, 2] [1, 2] [3] 0 "zero entry"
        (by rfl) (by rfl)⟩,
    (writeBatch_first_error _).2 [] [1, 2] [1, 2] (by rfl)⟩

/-- Receiving from the drained outcome channel always yields the zero value,
no matter how often `Close` is repeated. -/
theorem closeSeq_drained (n : Nat) :
    ∀ (p : Pipe) (b : Bool),
      closeSeq (p, { buffer := none, closed := b }) n = none := by
  induction n with
  | zero =>
    intro p b
    rfl
  | succ n ih =>
    intro p b
    simpa [closeSeq, closeConn, chanRecv] using ih { p with closed := true } b

/-- C10: once `Close` has been called on the state left by a terminated
`httpRoutine` (one buffered outcome, channel closed), every later `Close`
returns nil — the buffered value is gone after the first receive and a
receive from the closed channel yields the zero value — regardless of what
the first call returned. -/
theorem close_after_close_nil (p : Pipe) (r : HttpResult) (n : Nat) :
    closeSeq (p, routineChan r) (n + 1) = none := by
  show closeSeq (closeConn (p, routineChan r)).2 n = none
  have : (closeConn (p, routineChan r)).2 =
      ({ p with closed := true }, { buffer := none, closed := true }) := by
    simp [closeConn, routineChan, chanRecv]
  rw [this]
  exact closeSeq_drained n { p with closed := true } true

/-- C4: for a connection whose single request completed with a response,
`Close` returns nil exactly when the status is 200; for any other status it
returns an error whose text contains the status code, the status line, and
the first at-most-512 bytes of the response body. -/
theorem close_status_error (p : Pipe) (code : Nat) (status : String)
    (body : List Char) :
    ((closeConn (p, routineChan (.response code status body))).1 = none ↔
      code = 200) ∧
    (code ≠ 200 →
      ∃ e, (closeConn (p, routineChan (.response code status body))).1 =
          some e ∧
        (∃ a b, e.data = a ++ (Nat.repr code).data ++ b) ∧
        (∃ a b, e.data = a ++ status.data ++ b) ∧
        (∃ a b, e.data = a ++ body.take 512 ++ b)) := by
  have hfst : (closeConn (p, routineChan (.response code status body))).1 =
      httpRoutineOutcome (.response code status body) := rfl
  constructor
  · rw [hfst]
    by_cases hc : code = 200 <;> simp [httpRoutineOutcome, hc]
  · intro hc
    refine ⟨statusMsg code status body, by simp [hfst, httpRoutineOutcome, hc],
      ?_, ?_, ?_⟩
    · exact ⟨"invalid status ".data,
        " (".data ++ status.data ++ [')', '\n'] ++ body.take 512,
        by simp [statusMsg, List.append_assoc]⟩
    · exact ⟨"invalid status ".data ++ (Nat.repr code).data ++ " (".data,
        [')', '\n'] ++ body.take 512, by simp [statusMsg, List.append_assoc]⟩
    · exact ⟨"invalid status ".data ++ (Nat.repr code).data ++ " (".data ++
        status.data ++ [')', '\n'], [],
        by simp [statusMsg, List.append_assoc]⟩

/-- C4 witness: status 500 (`500 Internal Server Error`) with body
`server error` makes `Close` return an error containing `500` and
`server error`. -/
theorem close_status_error_witness :
    (500 ≠ 200) ∧
    (∃ e, (closeConn (⟨[], false⟩,
        routineChan (.response 500 "500 Internal Server Error"
          "server error".data))).1 = some e ∧
      (∃ a b, e.data = a ++ (Nat.repr 500).data ++ b) ∧
      (∃ a b, e.data = a ++ ("500 Internal Server Error" : String).data ++ b) ∧
      (∃ a b, e.data = a ++ "server error".data.take 512 ++ b)) :=
  ⟨by decide,
    (close_status_error ⟨[], false⟩ 500 "500 Internal Server Error"
      "server error".data).2 (by decide)⟩

/-! ## Claim theorems: connection construction (C3) -/

/-- C3 counterexample: an environment in which resolution, dial, splitting
and the probe close all succeed but `net.ParseIP` fails on the local
address's host part.  The claim says construction must fail then; in fact
`test` never checks `ParseIP`'s result (hec.go:75), so `newHecConn` returns
a usable connection whose source address is nil. -/
theorem newHecConn_parseIP_counterexample :
    (NetEnv.mk (.ok ()) (.ok ()) (.ok "badhost") (fun _ => none)
        none).parseIP "badhost" = none ∧
    newHecConn (.ok ()) "testtag"
        (NetEnv.mk (.ok ()) (.ok ()) (.ok "badhost") (fun _ => none) none) =
      .ok { src := none, tags := [(0, "testtag")] } :=
  ⟨rfl, rfl⟩

/-- C3 amended: construction fails — returning an error and, the result
being an `Except`, no connection at all — whenever URL parsing, address
resolution, the dial, the host/port split of the probe's local address, or
the probe close fails; a `net.ParseIP` failure, however, is not detected:
construction then succeeds and the connection's source address is whatever
`ParseIP` produced (nil on failure). -/
theorem newHecConn_failure_modes (u : Except String Unit) (tag : String)
    (env : NetEnv) :
    ((u.isOk = false ∨ env.resolve.isOk = false ∨ env.dial.isOk = false ∨
        env.split.isOk = false ∨ env.closeErr.isSome = true) →
      ∃ e, newHecConn u tag env = .error e) ∧
    (∀ ipstr, u = .ok () → env.resolve = .ok () → env.dial = .ok () →
      env.split = .ok ipstr → env.closeErr = none →
      newHecConn u tag env =
        .ok { src := env.parseIP ipstr, tags := seedTags tag }) := by
  obtain ⟨res, dia, sp, pip, ce⟩ := env
  constructor
  · intro h
    rcases u with e | u
    · exact ⟨e, rfl⟩
    · rcases res with e | res
      · exact ⟨e, rfl⟩
      · rcases dia with e | dia
        · exact ⟨e, rfl⟩
        · rcases sp with e | ipstr
          · exact ⟨e, rfl⟩
          · rcases ce with _ | e
            · simp [Except.isOk, Except.toBool] at h
            · exact ⟨e, rfl⟩
  · rintro ipstr rfl rfl rfl hsp rfl
    rcases hsp2 : (Except.ok ipstr : Except String String) with e | ip2
    · exact absurd hsp2 (by simp)
    · have : ipstr = ip2 := by simpa using hsp2
      subst this
      cases hsp
      rfl

/-- C3 amended witness: a failing resolve aborts construction, and the
all-success environment of the counterexample constructs the connection with
the (here nil) parsed source address. -/
theorem newHecConn_failure_modes_witness :
    (((Except.ok () : Except String Unit).isOk = false ∨
        (Except.error "no such host" : Except String Unit).isOk = false ∨
        (Except.ok () : Except String Unit).isOk = false ∨
        (Except.ok "h" : Except String String).isOk = false ∨
        (none : Option String).isSome = true) ∧
      ∃ e, newHecConn (.ok ()) "t"
          (NetEnv.mk (.error "no such host") (.ok ()) (.ok "h")
            (fun _ => some "1.2.3.4") none) = .error e) ∧
    newHecConn (.ok ()) "t"
        (NetEnv.mk (.ok ()) (.ok ()) (.ok "h") (fun _ => some "1.2.3.4")
          none) =
      .ok { src := (fun (_ : String) => some "1.2.3.4") "h",
            tags := seedTags "t" } :=
  ⟨⟨Or.inr (Or.inl rfl),
      (newHecConn_failure_modes (.ok ()) "t"
        (NetEnv.mk (.error "no such host") (.ok ()) (.ok "h")
          (fun _ => some "1.2.3.4") none)).1 (Or.inr (Or.inl rfl))⟩,
    (newHecConn_failure_modes (.ok ()) "t"
      (NetEnv.mk (.ok ()) (.ok ()) (.ok "h") (fun _ => some "1.2.3.4")
        none)).2 "h" rfl rfl rfl rfl rfl⟩

/-! ## Claim theorems: event-mode payload embedding (C1) -/

/-- C1 evidence (the claim is contradicted by the code): `sendEvent` puts the
payload into the `event` field raw.  For the payload `hello` — not a JSON
object — the record never becomes `{"event":"hello",...}`: marshalling the
raw message fails and `sendEvent` returns the encoder's error, writing
nothing.  A well-formed non-object payload such as `[1]` is embedded raw,
not string-quoted.  The unused helper `setData`, which the spec describes,
would indeed have produced the JSON-quoted string `"hello"`. -/
theorem sendEvent_raw_embedding :
    sendEvent "st" (some ⟨⟨0, 0⟩, 0, "hello".data⟩) =
      .error
        "json: error calling MarshalJSON for type json.RawMessage: invalid value" ∧
    sendEvent "" (some ⟨⟨0, 0⟩, 0, "[1]".data⟩) =
      .ok (some { event := some "[1]".data, time := none,
                  sourcetype := none }) ∧
    setData "hello".data false = ("\"hello\"".data, false) :=
  ⟨by rfl, by rfl, by rfl⟩

end HecSpec
